import Mathlib

/-!
Verification development for `modules/date_collection.py`: a calendar that
assigns a location (and, in the distance variant, a distance from a fixed home
location) to every date in a configured range.

Modelling choices, from the source:
* Calendar dates are proleptic-Gregorian ordinals (`Int`), matching Python
  `date.toordinal()`; `timedelta(days=n)` is integer subtraction and the daily
  `rrule` enumeration is an inclusive integer range.
* JSON numbers in the coordinate reference file are exact decimals, modelled
  as `ℚ`; the real-valued haversine computation (Python floats) is modelled
  over `ℝ`.
* The Python dict `self.locations` (unique ordered keys) is an association
  list `List (Int × V)`; dict assignment on a present key replaces the value
  in place.
* A `SystemExit` raised by the missing-coordinates handler, or an uncaught
  `TypeError` from indexing a malformed table entry, aborts the process;
  operations return the mapping as it stood at the moment of the abort, so
  that "no partial writes" is a provable statement.
-/

/-- Outcome of an operation that may abort the process.  `systemExit` carries
the lines printed before `raise SystemExit()`; `typeError` models an uncaught
Python `TypeError` when a resolved path does not traverse nested dicts down to
a coordinate pair (no claim exercises this case, but the model keeps it
distinct from the caught `KeyError`). -/
inductive Crash where
  | systemExit (printed : List String)
  | typeError
deriving DecidableEq

/-- Failure modes of walking the coordinate reference table: a path segment
absent from a nested dict (`KeyError`, caught by `_coordinates`), or a path
whose shape does not match the table (uncaught in Python). -/
inductive ResolveErr where
  | missing
  | shape
deriving DecidableEq

/-- The coordinate reference table (`data/coordinates.json`): a nested mapping
from place-name segments ending at `[latitude, longitude]` pairs. -/
inductive CoordTable where
  | coords (c : ℚ × ℚ)
  | node (children : List (String × CoordTable))

/-- Splits a character list at every occurrence of `sep`; Python
`"".split(sep)` yields `[""]`, and adjacent separators yield empty segments,
so the base case is the one-element list holding the empty segment. -/
def splitCharList (sep : Char) : List Char → List (List Char)
  | [] => [[]]
  | c :: rest =>
    match splitCharList sep rest with
    | [] => if c = sep then [[], []] else [[c]]
    | g :: gs => if c = sep then [] :: g :: gs else (c :: g) :: gs

/-- Model of Python `location.split("/")` (structurally recursive so that it
evaluates inside the kernel, unlike `String.splitOn`). -/
def pySplit (s : String) : List String :=
  (splitCharList (Char.ofNat 47) s.data).map List.asString

/-- Walk the table one path segment at a time, as
`reduce(operator.getitem, location_list, self.location_coordinates)` does.
A segment missing from a dict raises `KeyError` (`.missing`); indexing a
coordinate pair with a further segment, or ending on an interior dict rather
than a pair, is a shape mismatch that Python would surface as a later
`TypeError`/`KeyError` outside the `except KeyError` handler (`.shape`). -/
def walkTable : CoordTable → List String → Except ResolveErr (ℚ × ℚ)
  | .coords c, [] => .ok c
  | .node _, [] => .error .shape
  | .coords _, _ :: _ => .error .shape
  | .node cs, s :: rest =>
    match List.lookup s cs with
    | some t => walkTable t rest
    | none => .error .missing

/-- Value of `DateCollection.COORDINATES_PATH`. -/
def COORDINATES_PATH : String := "data/coordinates.json"

/-- Lines printed by `DateCollection._coordinates` before raising `SystemExit`
when a path segment is missing from the reference table. -/
def missing_message (location : String) : List String :=
  ["\nCould not find coordinates for:", location,
   "\nPlease add it to " ++ COORDINATES_PATH ++ ".\n"]

/-- Model of `DateCollection._coordinates`: split the location on `"/"`, walk
the reference table; a missing segment (`KeyError`) is caught and becomes a
printing `SystemExit`. -/
def coordinatesOf (tbl : CoordTable) (location : String) : Except Crash (ℚ × ℚ) :=
  match walkTable tbl (pySplit location) with
  | .ok c => .ok c
  | .error .missing => .error (.systemExit (missing_message location))
  | .error .shape => .error .typeError

instance {ε α : Type} [DecidableEq ε] [DecidableEq α] : DecidableEq (Except ε α) :=
  fun x y =>
    match x, y with
    | .ok a, .ok b =>
      if h : a = b then .isTrue (by rw [h])
      else .isFalse (fun hh => h (Except.ok.inj hh))
    | .ok _, .error _ => .isFalse (fun hh => Except.noConfusion hh)
    | .error _, .ok _ => .isFalse (fun hh => Except.noConfusion hh)
    | .error a, .error b =>
      if h : a = b then .isTrue (by rw [h])
      else .isFalse (fun hh => h (Except.error.inj hh))

/-- Model of `first_morning`: `checkout_date - timedelta(days=(nights-1))`. -/
def first_morning (checkout_date nights : Int) : Int :=
  checkout_date - (nights - 1)

/-- Model of `DateCollection._inclusive_date_range` (daily `rrule` from
`dtstart` to `until`): every date from `s` to `e` inclusive, in order, and
empty when `e < s`. -/
def inclusive_date_range (s e : Int) : List Int :=
  (List.range (e + 1 - s).toNat).map (fun (i : Nat) => s + (i : Int))

/-- Gregorian leap-year test, as in Python's `datetime`. -/
def is_leap (y : Int) : Bool :=
  (y % 4 == 0 && y % 100 != 0) || y % 400 == 0

/-- Days before the first of month `m` (1-based) in year `y`. -/
def days_before_month (y : Int) (m : Nat) : Int :=
  (([0, 31, 59, 90, 120, 151, 181, 212, 243, 273, 304, 334] : List Int).getD (m - 1) 0)
    + (if is_leap y ∧ 3 ≤ m then 1 else 0)

/-- Model of Python `date(y, m, d).toordinal()` (proleptic Gregorian ordinal,
day 1 = 0001-01-01); used to turn the year bounds of
`DateDistanceCollection.__init__` into date ordinals. -/
def toordinal (y : Int) (m d : Nat) : Int :=
  365 * (y - 1) + (y - 1) / 4 - (y - 1) / 100 + (y - 1) / 400
    + days_before_month y m + d

/-- Value stored for a date by `DateCollection`: the dict
`{'city': location, 'coordinates': ...}`. -/
structure Assignment where
  city : String
  coordinates : ℚ × ℚ
deriving DecidableEq

/-- State of a `DateCollection` instance: the loaded coordinate reference
table and the date → assignment-or-`None` mapping. -/
structure DateCollection where
  location_coordinates : CoordTable
  locations : List (Int × Option Assignment)

/-- Key list of the mapping, in insertion order. -/
def keys {V : Type} (l : List (Int × V)) : List Int := l.map Prod.fst

/-- Value stored under key `k` (first occurrence), `none` if `k` is absent. -/
def getVal {V : Type} : List (Int × V) → Int → Option V
  | [], _ => none
  | p :: rest, k => if p.1 = k then some p.2 else getVal rest k

/-- Model of Python dict assignment `l[k] = v` on a present key: replace the
value, preserving insertion order (keys are unique in every state the program
builds; on an absent key this is the identity, matching the fact that the
loop's membership guard prevents insertion). -/
def updateKey {V : Type} (l : List (Int × V)) (k : Int) (v : V) : List (Int × V) :=
  l.map (fun p => if p.1 = k then (k, v) else p)

/-- Model of `DateCollection.__init__`: resolve the default location first
(which may abort the process), then build one entry per date of the inclusive
range, every entry initialized to the same default value. -/
def mkDateCollection (tbl : CoordTable) (start_date end_date : Int)
    (default_location : Option String) : Except Crash DateCollection :=
  match default_location with
  | none =>
      .ok ⟨tbl, (inclusive_date_range start_date end_date).map (fun d => (d, none))⟩
  | some loc =>
      match coordinatesOf tbl loc with
      | .error e => .error e
      | .ok c =>
          .ok ⟨tbl, (inclusive_date_range start_date end_date).map
            (fun d => (d, some ⟨loc, c⟩))⟩

/-- Shared model of the `for day in dates` loop of both `set_location`
methods: for each date that is a key of the mapping, resolve the location
(the dict literal's `self._coordinates(location)` runs before the assignment,
so a missing location aborts before the write) and overwrite the entry with
`mkVal` of the resolved coordinates.  Returns the mapping as it stands when
the loop ends or aborts, plus the crash if one occurred. -/
def stampLoop {V : Type} (tbl : CoordTable) (location : String) (mkVal : ℚ × ℚ → V) :
    List Int → List (Int × V) → List (Int × V) × Option Crash
  | [], l => (l, none)
  | day :: rest, l =>
    if day ∈ keys l then
      match coordinatesOf tbl location with
      | .ok c => stampLoop tbl location mkVal rest (updateKey l day (mkVal c))
      | .error e => (l, some e)
    else
      stampLoop tbl location mkVal rest l

/-- Model of `DateCollection.set_location`: stamp every in-span date of the
stay range with `{'city': location, 'coordinates': self._coordinates(location)}`. -/
def DateCollection.set_location (c : DateCollection) (checkout_date nights : Int)
    (location : String) : List (Int × Option Assignment) × Option Crash :=
  stampLoop c.location_coordinates location (fun cc => some ⟨location, cc⟩)
    (inclusive_date_range (first_morning checkout_date nights) checkout_date)
    c.locations

/-- Value stored for a date by `DateDistanceCollection`: the dict
`{'city': ..., 'coordinates': ..., 'distance': ...}` (distance in miles,
a Python float modelled as `ℝ`). -/
structure DistanceAssignment where
  city : String
  coordinates : ℚ × ℚ
  distance : ℝ

/-- State of a `DateDistanceCollection` instance. -/
structure DateDistanceCollection where
  location_coordinates : CoordTable
  home_coordinates : ℚ × ℚ
  locations : List (Int × Option DistanceAssignment)

/-- Value of `DateDistanceCollection.EARTH_MEAN_RADIUS` (miles). -/
def EARTH_MEAN_RADIUS : ℝ := 3958.7613

/-- Value of `DateDistanceCollection.DEG_TO_RAD`. -/
noncomputable def DEG_TO_RAD : ℝ := Real.pi / 180

/-- Model of `math.atan2 y x`: the argument of the complex number `x + y·i`,
which agrees with the two-argument arctangent on every quadrant. -/
noncomputable def atan2 (y x : ℝ) : ℝ := Complex.arg ⟨x, y⟩

/-- Body of `DateDistanceCollection._home_distance` after coordinate
resolution, transcribed from the source (Python floats modelled as exact
reals). -/
noncomputable def haversine (home loc : ℚ × ℚ) : ℝ :=
  let phi_1 : ℝ := (home.1 : ℝ) * DEG_TO_RAD
  let phi_2 : ℝ := (loc.1 : ℝ) * DEG_TO_RAD
  let delta_phi : ℝ := ((loc.1 : ℝ) - (home.1 : ℝ)) * DEG_TO_RAD
  let delta_lambda : ℝ := ((loc.2 : ℝ) - (home.2 : ℝ)) * DEG_TO_RAD
  let a : ℝ := Real.sin (delta_phi / 2) ^ 2
    + Real.cos phi_1 * Real.cos phi_2 * Real.sin (delta_lambda / 2) ^ 2
  2 * EARTH_MEAN_RADIUS * atan2 (Real.sqrt a) (Real.sqrt (1 - a))

/-- The intermediate quantity `a` of `_home_distance`, named so that the
haversine formula can be manipulated without its local bindings. -/
noncomputable def hav_a (home loc : ℚ × ℚ) : ℝ :=
  Real.sin ((((loc.1 : ℝ) - (home.1 : ℝ)) * DEG_TO_RAD) / 2) ^ 2
    + Real.cos ((home.1 : ℝ) * DEG_TO_RAD) * Real.cos ((loc.1 : ℝ) * DEG_TO_RAD)
      * Real.sin ((((loc.2 : ℝ) - (home.2 : ℝ)) * DEG_TO_RAD) / 2) ^ 2

/-- Model of `DateDistanceCollection._home_distance`: resolve the location
(which may abort), then apply the haversine formula to the stored home
coordinates and the resolved coordinates. -/
noncomputable def DateDistanceCollection.home_distance (c : DateDistanceCollection)
    (location : String) : Except Crash ℝ :=
  match coordinatesOf c.location_coordinates location with
  | .error e => .error e
  | .ok lc => .ok (haversine c.home_coordinates lc)

/-- Model of `DateDistanceCollection.set_location`: derive the stay's date
range, compute the home distance once (before the loop; a missing location
aborts here, before any write), then stamp every in-span date with the same
city, coordinates and distance. -/
noncomputable def DateDistanceCollection.set_location (c : DateDistanceCollection)
    (checkout_date nights : Int) (location : String) :
    List (Int × Option DistanceAssignment) × Option Crash :=
  let dates := inclusive_date_range (first_morning checkout_date nights) checkout_date
  match c.home_distance location with
  | .error e => (c.locations, some e)
  | .ok distance =>
      stampLoop c.location_coordinates location (fun cc => some ⟨location, cc, distance⟩)
        dates c.locations

/-- Model of `DateDistanceCollection.__init__`: derive the Jan 1 / Dec 31
ordinals, run the base constructor with the home location as default, resolve
the home coordinates once more, then add `'distance': 0.0` to every entry.
The base constructor is always called here with a default location, so every
stored value is `some _`; mapping over the `Option` models the
`{**loc, 'distance': 0.0}` splat on exactly those values. -/
noncomputable def mkDateDistanceCollection (tbl : CoordTable) (start_year end_year : Int)
    (home_location : String) : Except Crash DateDistanceCollection :=
  let start_date := toordinal start_year 1 1
  let end_date := toordinal end_year 12 31
  match mkDateCollection tbl start_date end_date (some home_location) with
  | .error e => .error e
  | .ok base =>
    match coordinatesOf tbl home_location with
    | .error e => .error e
    | .ok hc =>
        .ok ⟨tbl, hc, base.locations.map
          (fun p => (p.1, p.2.map (fun a => ⟨a.city, a.coordinates, 0.0⟩)))⟩

/-- Instrumented `stampLoop`, additionally counting evaluations of
`_home_distance` performed by the loop body: the body calls `_coordinates`,
never `_home_distance`, so every iteration contributes zero. -/
def stampLoopCounted {V : Type} (tbl : CoordTable) (location : String) (mkVal : ℚ × ℚ → V) :
    List Int → List (Int × V) → (List (Int × V) × Option Crash) × Nat
  | [], l => ((l, none), 0)
  | day :: rest, l =>
    if day ∈ keys l then
      match coordinatesOf tbl location with
      | .ok c => stampLoopCounted tbl location mkVal rest (updateKey l day (mkVal c))
      | .error e => ((l, some e), 0)
    else
      stampLoopCounted tbl location mkVal rest l

/-- Instrumented `DateDistanceCollection.set_location`, counting how many
times the haversine distance is evaluated during the call: exactly once, at
`distance = self._home_distance(location)` before the loop, and never inside
the per-date loop. -/
noncomputable def DateDistanceCollection.set_location_counted (c : DateDistanceCollection)
    (checkout_date nights : Int) (location : String) :
    (List (Int × Option DistanceAssignment) × Option Crash) × Nat :=
  let dates := inclusive_date_range (first_morning checkout_date nights) checkout_date
  match c.home_distance location with
  | .error e => ((c.locations, some e), 1)
  | .ok distance =>
      let r := stampLoopCounted c.location_coordinates location
        (fun cc => some ⟨location, cc, distance⟩) dates c.locations
      (r.1, 1 + r.2)

/-- Reference haversine from the spec (§4.2 `haversine_distance`), written
from the spec's own formula: R = 3958.7613 miles, angles converted from
degrees to radians, `a = sin²(Δφ/2) + cos φ1 · cos φ2 · sin²(Δλ/2)`, and
`distance = 2·R·atan2(√a, √(1−a))`. -/
noncomputable def spec_haversine (home dest : ℚ × ℚ) : ℝ :=
  let R : ℝ := 3958.7613
  let phi1 : ℝ := (home.1 : ℝ) * (Real.pi / 180)
  let phi2 : ℝ := (dest.1 : ℝ) * (Real.pi / 180)
  let dphi : ℝ := ((dest.1 : ℝ) - (home.1 : ℝ)) * (Real.pi / 180)
  let dlam : ℝ := ((dest.2 : ℝ) - (home.2 : ℝ)) * (Real.pi / 180)
  let a : ℝ := Real.sin (dphi / 2) ^ 2 + Real.cos phi1 * Real.cos phi2 * Real.sin (dlam / 2) ^ 2
  2 * R * atan2 (Real.sqrt a) (Real.sqrt (1 - a))

/-- Runs a stateful call twice, as two successive Python calls would: if the
first call crashes the process, the second never runs. -/
def runTwice {L : Type} (f : L → L × Option Crash) (l : L) : L × Option Crash :=
  match f l with
  | (l1, some e) => (l1, some e)
  | (l1, none) => f l1

/-- Pure residue of the stamping loop once resolution is known to succeed
with value `v`: fold the guarded overwrite over the date list. -/
def stampFold {V : Type} (v : V) : List Int → List (Int × V) → List (Int × V)
  | [], l => l
  | day :: rest, l => stampFold v rest (if day ∈ keys l then updateKey l day v else l)

/-- Small concrete coordinate reference table used to instantiate theorems
with hypotheses on concrete inputs. -/
def sampleTable : CoordTable :=
  .node [("US", .node [("FL", .node [("Pcola", .coords (3042, -8722))])]),
         ("Home", .coords (30, -87))]

section DictLemmas

variable {V : Type}

theorem updateKey_cons (p : Int × V) (rest : List (Int × V)) (k : Int) (v : V) :
    updateKey (p :: rest) k v = (if p.1 = k then (k, v) else p) :: updateKey rest k v :=
  rfl

theorem getVal_cons (p : Int × V) (rest : List (Int × V)) (k : Int) :
    getVal (p :: rest) k = if p.1 = k then some p.2 else getVal rest k :=
  rfl

theorem keys_cons (p : Int × V) (rest : List (Int × V)) :
    keys (p :: rest) = p.1 :: keys rest :=
  rfl

theorem mem_keys_cons {k : Int} {p : Int × V} {rest : List (Int × V)} :
    k ∈ keys (p :: rest) ↔ k = p.1 ∨ k ∈ keys rest := by
  rw [keys_cons, List.mem_cons]

theorem keys_updateKey (l : List (Int × V)) (k : Int) (v : V) :
    keys (updateKey l k v) = keys l := by
  unfold keys updateKey
  rw [List.map_map]
  refine List.map_congr_left (fun p _ => ?_)
  show (if p.1 = k then (k, v) else p).1 = p.1
  by_cases h : p.1 = k
  · rw [if_pos h]; exact h.symm
  · rw [if_neg h]

theorem getVal_eq_none_of_not_mem {l : List (Int × V)} {k : Int}
    (h : k ∉ keys l) : getVal l k = none := by
  induction l with
  | nil => rfl
  | cons p rest ih =>
      rw [mem_keys_cons] at h
      push_neg at h
      rw [getVal_cons, if_neg (fun hh => h.1 hh.symm)]
      exact ih h.2

theorem getVal_updateKey_self (l : List (Int × V)) (k : Int) (v : V) :
    getVal (updateKey l k v) k = if k ∈ keys l then some v else none := by
  induction l with
  | nil => rfl
  | cons p rest ih =>
      by_cases h : p.1 = k
      · rw [updateKey_cons, if_pos h, getVal_cons, if_pos rfl,
          if_pos (mem_keys_cons.mpr (Or.inl h.symm))]
      · have hiff : (k ∈ keys (p :: rest)) = (k ∈ keys rest) := by
          rw [eq_iff_iff, mem_keys_cons]
          exact or_iff_right (fun hh => h hh.symm)
        rw [updateKey_cons, if_neg h, getVal_cons, if_neg h, ih]
        exact (if_congr (iff_of_eq hiff) rfl rfl).symm

theorem getVal_updateKey_ne {k' k : Int} (l : List (Int × V)) (v : V) (h : k' ≠ k) :
    getVal (updateKey l k v) k' = getVal l k' := by
  induction l with
  | nil => rfl
  | cons p rest ih =>
      by_cases hp : p.1 = k
      · have hp' : ¬p.1 = k' := by rw [hp]; exact fun hh => h hh.symm
        rw [updateKey_cons, if_pos hp, getVal_cons,
          if_neg (show ¬(k, v).1 = k' from fun hh => h hh.symm),
          getVal_cons, if_neg hp', ih]
      · rw [updateKey_cons, if_neg hp, getVal_cons, getVal_cons, ih]

theorem updateKey_not_mem {l : List (Int × V)} {k : Int} (v : V)
    (h : k ∉ keys l) : updateKey l k v = l := by
  induction l with
  | nil => rfl
  | cons p rest ih =>
      rw [mem_keys_cons] at h
      push_neg at h
      rw [updateKey_cons, if_neg (fun hh => h.1 hh.symm), ih h.2]

theorem updateKey_idem (l : List (Int × V)) (k : Int) (v : V) :
    updateKey (updateKey l k v) k v = updateKey l k v := by
  induction l with
  | nil => rfl
  | cons p rest ih =>
      by_cases h : p.1 = k
      · rw [updateKey_cons, if_pos h, updateKey_cons, if_pos rfl, ih]
      · rw [updateKey_cons, if_neg h, updateKey_cons, if_neg h, ih]

theorem updateKey_comm {k k' : Int} (l : List (Int × V)) (v v' : V) (h : k ≠ k') :
    updateKey (updateKey l k v) k' v' = updateKey (updateKey l k' v') k v := by
  induction l with
  | nil => rfl
  | cons p rest ih =>
      by_cases h1 : p.1 = k
      · have h2 : ¬p.1 = k' := by rw [h1]; exact h
        rw [updateKey_cons p rest k v, if_pos h1, updateKey_cons,
          if_neg (show ¬(k, v).1 = k' from h), updateKey_cons p rest k' v',
          if_neg h2, updateKey_cons, if_pos h1, ih]
      · by_cases h2 : p.1 = k'
        · rw [updateKey_cons p rest k v, if_neg h1, updateKey_cons, if_pos h2,
            updateKey_cons p rest k' v', if_pos h2, updateKey_cons,
            if_neg (show ¬(k', v').1 = k from Ne.symm h), ih]
        · rw [updateKey_cons p rest k v, if_neg h1, updateKey_cons, if_neg h2,
            updateKey_cons p rest k' v', if_neg h2, updateKey_cons, if_neg h1, ih]

theorem keys_stampFold (v : V) (dates : List Int) (l : List (Int × V)) :
    keys (stampFold v dates l) = keys l := by
  induction dates generalizing l with
  | nil => rfl
  | cons day rest ih =>
      by_cases hk : day ∈ keys l <;> simp [stampFold, hk, ih, keys_updateKey]

theorem getVal_stampFold_not_mem {d : Int} (v : V) {dates : List Int}
    (l : List (Int × V)) (hd : d ∉ dates) :
    getVal (stampFold v dates l) d = getVal l d := by
  induction dates generalizing l with
  | nil => rfl
  | cons day rest ih =>
      simp at hd
      by_cases hk : day ∈ keys l <;>
        simp [stampFold, hk, ih _ hd.2, getVal_updateKey_ne _ _ hd.1]

theorem getVal_stampFold_mem {d : Int} (v : V) {dates : List Int}
    {l : List (Int × V)} (hd : d ∈ dates) (hk : d ∈ keys l) :
    getVal (stampFold v dates l) d = some v := by
  induction dates generalizing l with
  | nil => cases hd
  | cons day rest ih =>
      by_cases hr : d ∈ rest
      · refine (ih hr ?_)
        by_cases hdayk : day ∈ keys l <;> simp [hdayk, keys_updateKey, hk]
      · have hday : d = day := by
          rcases List.mem_cons.mp hd with h | h
          · exact h
          · exact absurd h hr
        subst hday
        rw [stampFold, if_pos hk, getVal_stampFold_not_mem _ _ hr,
          getVal_updateKey_self, if_pos hk]

theorem updateKey_stable {l : List (Int × V)} {k : Int} {v : V}
    (h : updateKey l k v = l) (day : Int) :
    updateKey (if day ∈ keys l then updateKey l day v else l) k v
      = (if day ∈ keys l then updateKey l day v else l) := by
  by_cases hk : day ∈ keys l
  · simp only [if_pos hk]
    by_cases hd : k = day
    · subst hd; exact updateKey_idem l k v
    · rw [updateKey_comm l v v (Ne.symm hd), h]
  · simpa [hk] using h

theorem stampFold_stable {l : List (Int × V)} {k : Int} {v : V}
    (dates : List Int) (h : updateKey l k v = l) :
    updateKey (stampFold v dates l) k v = stampFold v dates l := by
  induction dates generalizing l with
  | nil => exact h
  | cons day rest ih => exact ih (updateKey_stable h day)

theorem updateKey_stampFold_mem {d : Int} {dates : List Int} (v : V)
    (l : List (Int × V)) (hd : d ∈ dates) :
    updateKey (stampFold v dates l) d v = stampFold v dates l := by
  induction dates generalizing l with
  | nil => cases hd
  | cons day rest ih =>
      by_cases hr : d ∈ rest
      · exact ih _ hr
      · have hday : d = day := by
          rcases List.mem_cons.mp hd with h | h
          · exact h
          · exact absurd h hr
        subst hday
        rw [stampFold]
        refine stampFold_stable rest ?_
        by_cases hk : d ∈ keys l
        · simp only [if_pos hk]; exact updateKey_idem l d v
        · simp only [if_neg hk]; exact updateKey_not_mem v hk

theorem stampFold_of_stable {dates : List Int} {l : List (Int × V)} {v : V}
    (h : ∀ d ∈ dates, updateKey l d v = l) : stampFold v dates l = l := by
  induction dates with
  | nil => rfl
  | cons day rest ih =>
      have hstep : (if day ∈ keys l then updateKey l day v else l) = l := by
        by_cases hk : day ∈ keys l <;> simp [hk, h day (by simp)]
      rw [stampFold, hstep]
      exact ih (fun d hd => h d (by simp [hd]))

theorem stampFold_idem (v : V) (dates : List Int) (l : List (Int × V)) :
    stampFold v dates (stampFold v dates l) = stampFold v dates l :=
  stampFold_of_stable (fun _ hd => updateKey_stampFold_mem v l hd)

theorem stampLoop_ok {tbl : CoordTable} {loc : String} {c : ℚ × ℚ}
    (mkVal : ℚ × ℚ → V) (h : coordinatesOf tbl loc = .ok c)
    (dates : List Int) (l : List (Int × V)) :
    stampLoop tbl loc mkVal dates l = (stampFold (mkVal c) dates l, none) := by
  induction dates generalizing l with
  | nil => rfl
  | cons day rest ih =>
      by_cases hk : day ∈ keys l
      · simp only [stampLoop, if_pos hk, h, stampFold]
        exact ih _
      · rw [stampLoop, if_neg hk, stampFold, if_neg hk]
        exact ih _

theorem stampLoop_of_disjoint (tbl : CoordTable) (loc : String)
    (mkVal : ℚ × ℚ → V) {dates : List Int} {l : List (Int × V)}
    (hall : ∀ d ∈ dates, d ∉ keys l) :
    stampLoop tbl loc mkVal dates l = (l, none) := by
  induction dates with
  | nil => rfl
  | cons day rest ih =>
      rw [stampLoop, if_neg (hall day (by simp))]
      exact ih (fun d hd => hall d (by simp [hd]))

theorem stampLoop_error {tbl : CoordTable} {loc : String} {e : Crash}
    (mkVal : ℚ × ℚ → V) (h : coordinatesOf tbl loc = .error e)
    {dates : List Int} {l : List (Int × V)} {d : Int}
    (hd : d ∈ dates) (hk : d ∈ keys l) :
    stampLoop tbl loc mkVal dates l = (l, some e) := by
  induction dates with
  | nil => cases hd
  | cons day rest ih =>
      by_cases hkday : day ∈ keys l
      · simp only [stampLoop, if_pos hkday, h]
      · have hdr : d ∈ rest := by
          rcases List.mem_cons.mp hd with hh | hh
          · exact absurd (hh ▸ hk) hkday
          · exact hh
        rw [stampLoop, if_neg hkday]
        exact ih hdr

theorem keys_stampLoop (tbl : CoordTable) (loc : String) (mkVal : ℚ × ℚ → V)
    (dates : List Int) (l : List (Int × V)) :
    keys (stampLoop tbl loc mkVal dates l).1 = keys l := by
  induction dates generalizing l with
  | nil => rfl
  | cons day rest ih =>
      by_cases hk : day ∈ keys l
      · cases hc : coordinatesOf tbl loc with
        | ok c =>
            simp only [stampLoop, if_pos hk, hc]
            rw [ih, keys_updateKey]
        | error e => simp only [stampLoop, if_pos hk, hc]
      · rw [stampLoop, if_neg hk]
        exact ih _

theorem stampLoopCounted_count (tbl : CoordTable) (loc : String)
    (mkVal : ℚ × ℚ → V) (dates : List Int) (l : List (Int × V)) :
    (stampLoopCounted tbl loc mkVal dates l).2 = 0 := by
  induction dates generalizing l with
  | nil => rfl
  | cons day rest ih =>
      by_cases hk : day ∈ keys l
      · cases hc : coordinatesOf tbl loc with
        | ok c =>
            simp only [stampLoopCounted, if_pos hk, hc]
            exact ih _
        | error e => simp only [stampLoopCounted, if_pos hk, hc]
      · rw [stampLoopCounted, if_neg hk]
        exact ih _

theorem stampLoopCounted_fst (tbl : CoordTable) (loc : String)
    (mkVal : ℚ × ℚ → V) (dates : List Int) (l : List (Int × V)) :
    (stampLoopCounted tbl loc mkVal dates l).1 = stampLoop tbl loc mkVal dates l := by
  induction dates generalizing l with
  | nil => rfl
  | cons day rest ih =>
      by_cases hk : day ∈ keys l
      · cases hc : coordinatesOf tbl loc with
        | ok c =>
            simp only [stampLoopCounted, stampLoop, if_pos hk, hc]
            exact ih _
        | error e => simp only [stampLoopCounted, stampLoop, if_pos hk, hc]
      · rw [stampLoopCounted, if_neg hk, stampLoop, if_neg hk]
        exact ih _

theorem stampLoop_restamp (tbl : CoordTable) (loc : String) (mkVal : ℚ × ℚ → V)
    (dates : List Int) (l : List (Int × V)) {l1 : List (Int × V)}
    (h : stampLoop tbl loc mkVal dates l = (l1, none)) :
    stampLoop tbl loc mkVal dates l1 = (l1, none) := by
  cases hc : coordinatesOf tbl loc with
  | ok c =>
      rw [stampLoop_ok mkVal hc dates l] at h
      have hl1 : stampFold (mkVal c) dates l = l1 := congrArg Prod.fst h
      rw [stampLoop_ok mkVal hc dates l1, ← hl1, stampFold_idem]
  | error e =>
      by_cases hdisj : ∀ d ∈ dates, d ∉ keys l
      · rw [stampLoop_of_disjoint tbl loc mkVal hdisj] at h
        have hl1 : l = l1 := congrArg Prod.fst h
        rw [← hl1]
        exact stampLoop_of_disjoint tbl loc mkVal hdisj
      · push_neg at hdisj
        obtain ⟨d, hd, hk⟩ := hdisj
        rw [stampLoop_error mkVal hc hd hk] at h
        simp at h

end DictLemmas

theorem runTwice_eq_self {L : Type} {f : L → L × Option Crash} {l : L}
    (h : ∀ l1, f l = (l1, none) → f l1 = (l1, none)) : runTwice f l = f l := by
  have hdef : runTwice f l
      = (match f l with | (l1, some e) => (l1, some e) | (l1, none) => f l1) := rfl
  rcases hfl : f l with ⟨l1, e1⟩
  cases e1 with
  | none =>
      rw [hdef, hfl]
      exact h l1 hfl
  | some e =>
      rw [hdef, hfl]

theorem mem_inclusive_date_range {d s e : Int} :
    d ∈ inclusive_date_range s e ↔ s ≤ d ∧ d ≤ e := by
  unfold inclusive_date_range
  rw [List.mem_map]
  constructor
  · rintro ⟨i, hi, rfl⟩
    rw [List.mem_range] at hi
    omega
  · intro h
    refine ⟨(d - s).toNat, ?_, ?_⟩
    · rw [List.mem_range]
      omega
    · omega

theorem length_inclusive_date_range (s e : Int) :
    (inclusive_date_range s e).length = (e + 1 - s).toNat := by
  rw [inclusive_date_range, List.length_map, List.length_range]

theorem keys_map_const {V : Type} (dates : List Int) (f : Int → V) :
    keys (dates.map (fun d => (d, f d))) = dates := by
  unfold keys
  rw [List.map_map, show (Prod.fst ∘ fun d => (d, f d)) = id from rfl, List.map_id]

/-- C2: for every checkout date and every nights ≥ 1, the stay range used by
`set_location` — `inclusive_date_range (first_morning checkout nights) checkout`
— contains exactly the dates from `checkout − (nights − 1)` through `checkout`
inclusive, has exactly `nights` dates, and for nights = 1 is the single date
`[checkout]`. -/
theorem claim_C2_stay_range (checkout_date nights : Int) (h : 1 ≤ nights) :
    (∀ d : Int,
      d ∈ inclusive_date_range (first_morning checkout_date nights) checkout_date
        ↔ (checkout_date - (nights - 1) ≤ d ∧ d ≤ checkout_date))
    ∧ (inclusive_date_range (first_morning checkout_date nights) checkout_date).length
        = nights.toNat
    ∧ (nights = 1 →
        inclusive_date_range (first_morning checkout_date nights) checkout_date
          = [checkout_date]) := by
  refine ⟨fun d => ?_, ?_, ?_⟩
  · rw [first_morning, mem_inclusive_date_range]
  · rw [first_morning, length_inclusive_date_range]
    omega
  · intro h1
    subst h1
    rw [first_morning]
    have h2 : (checkout_date + 1 - (checkout_date - (1 - 1))).toNat = 1 := by omega
    rw [inclusive_date_range, h2, show List.range 1 = [0] from rfl, List.map_singleton]
    have h3 : checkout_date - (1 - 1) + ((0 : Nat) : Int) = checkout_date := by omega
    rw [h3]

/-- Witness for C2 at checkout ordinal 738955 (2024-03-10) and 3 nights: the
spec's worked example 2024-03-08 .. 2024-03-10. -/
theorem claim_C2_stay_range_witness :
    (1 : Int) ≤ 3
    ∧ inclusive_date_range (first_morning 738955 3) 738955 = [738953, 738954, 738955]
    ∧ (inclusive_date_range (first_morning 738955 3) 738955).length = (3 : Int).toNat :=
  ⟨by decide, by decide, (claim_C2_stay_range 738955 3 (by decide)).2.1⟩

/-- C10: the code's empty-range semantics for the inputs the spec leaves open:
constructing with `end_date < start_date` yields an empty mapping with no
error (with no default, or with any resolvable default), and `set_location`
with nights ≤ 0 enumerates no dates and leaves the mapping unchanged with no
error, on both classes (the distance class resolves the location before the
loop, so its no-error conjunct assumes a resolvable location). -/
theorem claim_C10_empty_range_semantics :
    (∀ (tbl : CoordTable) (s e : Int), e < s →
        mkDateCollection tbl s e none = .ok ⟨tbl, []⟩)
    ∧ (∀ (tbl : CoordTable) (s e : Int) (loc : String) (cc : ℚ × ℚ), e < s →
        coordinatesOf tbl loc = .ok cc →
        mkDateCollection tbl s e (some loc) = .ok ⟨tbl, []⟩)
    ∧ (∀ (c : DateCollection) (co n : Int) (loc : String), n ≤ 0 →
        c.set_location co n loc = (c.locations, none))
    ∧ (∀ (c : DateDistanceCollection) (co n : Int) (loc : String) (cc : ℚ × ℚ),
        n ≤ 0 →
        coordinatesOf c.location_coordinates loc = .ok cc →
        c.set_location co n loc = (c.locations, none)) := by
  refine ⟨fun tbl s e h => ?_, fun tbl s e loc cc h hres => ?_,
    fun c co n loc h => ?_, fun c co n loc cc h hres => ?_⟩
  · have hz : (e + 1 - s).toNat = 0 := by omega
    simp only [mkDateCollection, inclusive_date_range, hz, List.range_zero, List.map_nil]
  · have hz : (e + 1 - s).toNat = 0 := by omega
    simp only [mkDateCollection, inclusive_date_range, hz, List.range_zero, List.map_nil,
      hres]
  · have hz : (co + 1 - first_morning co n).toNat = 0 := by
      unfold first_morning
      omega
    simp only [DateCollection.set_location, inclusive_date_range, hz, List.range_zero,
      List.map_nil, stampLoop]
  · have hz : (co + 1 - first_morning co n).toNat = 0 := by
      unfold first_morning
      omega
    simp only [DateDistanceCollection.set_location, DateDistanceCollection.home_distance,
      hres, inclusive_date_range, hz, List.range_zero, List.map_nil, stampLoop]

/-- Witness for C10: an inverted range yields an empty calendar, and a
zero-night stay (even with an unresolvable location, on the base class)
changes nothing and reports no error. -/
theorem claim_C10_empty_range_semantics_witness :
    ((3 : Int) < 5 ∧ mkDateCollection sampleTable 5 3 none = .ok ⟨sampleTable, []⟩)
    ∧ ((0 : Int) ≤ 0
        ∧ DateCollection.set_location ⟨sampleTable, [(0, none)]⟩ 7 0 "Nowhere"
            = ([(0, none)], none)) :=
  ⟨⟨by decide, claim_C10_empty_range_semantics.1 sampleTable 5 3 (by decide)⟩,
   ⟨by decide, claim_C10_empty_range_semantics.2.2.1 ⟨sampleTable, [(0, none)]⟩ 7 0
      "Nowhere" (by decide)⟩⟩

/-- C1: for every construction with start_date ≤ end_date, the key set of the
mapping is exactly the dates of [start_date, end_date] inclusive, and every
subsequent `set_location` call, on either calendar class, leaves the key list
unchanged (values are only overwritten, never inserted or removed). -/
theorem claim_C1_key_set_invariant :
    (∀ (tbl : CoordTable) (s e : Int) (dflt : Option String) (c : DateCollection),
        s ≤ e → mkDateCollection tbl s e dflt = .ok c →
        (keys c.locations = inclusive_date_range s e
          ∧ ∀ d : Int, d ∈ keys c.locations ↔ (s ≤ d ∧ d ≤ e)))
    ∧ (∀ (c : DateCollection) (co n : Int) (loc : String),
        keys (c.set_location co n loc).1 = keys c.locations)
    ∧ (∀ (c : DateDistanceCollection) (co n : Int) (loc : String),
        keys (c.set_location co n loc).1 = keys c.locations) := by
  refine ⟨fun tbl s e dflt c _ hmk => ?_, fun c co n loc => ?_, fun c co n loc => ?_⟩
  · have hkeys : keys c.locations = inclusive_date_range s e := by
      cases dflt with
      | none =>
          simp only [mkDateCollection, Except.ok.injEq] at hmk
          rw [← hmk]
          exact keys_map_const _ _
      | some loc =>
          cases hres : coordinatesOf tbl loc with
          | ok cc =>
              simp only [mkDateCollection, hres, Except.ok.injEq] at hmk
              rw [← hmk]
              exact keys_map_const _ _
          | error err =>
              simp only [mkDateCollection, hres] at hmk
              exact Except.noConfusion hmk
    exact ⟨hkeys, fun d => by rw [hkeys, mem_inclusive_date_range]⟩
  · exact keys_stampLoop _ _ _ _ _
  · simp only [DateDistanceCollection.set_location]
    cases hhd : c.home_distance loc with
    | error e => rfl
    | ok dist => exact keys_stampLoop _ _ _ _ _

/-- Witness for C1: a concrete three-day calendar has keys [0, 1, 2] and a
concrete stamping call leaves them unchanged. -/
theorem claim_C1_key_set_invariant_witness :
    ((0 : Int) ≤ 2
      ∧ keys ([(0, none), (1, none), (2, none)] : List (Int × Option Assignment))
          = inclusive_date_range 0 2)
    ∧ keys (DateCollection.set_location
        ⟨sampleTable, [(0, none), (1, none), (2, none)]⟩ 2 2 "Home").1
        = keys ([(0, none), (1, none), (2, none)] : List (Int × Option Assignment)) :=
  ⟨⟨by decide,
    (claim_C1_key_set_invariant.1 sampleTable 0 2 none
      ⟨sampleTable, [(0, none), (1, none), (2, none)]⟩ (by decide) rfl).1⟩,
   claim_C1_key_set_invariant.2.1 ⟨sampleTable, [(0, none), (1, none), (2, none)]⟩
     2 2 "Home"⟩

/-- C5: constructing with a default location initializes every date's entry to
that location's city and looked-up coordinates (with no default, every entry
is unset); the distance variant spans Jan 1 of start_year through Dec 31 of
end_year and initializes every entry's distance to exactly 0.0. -/
theorem claim_C5_default_initialization :
    (∀ (tbl : CoordTable) (s e : Int),
        mkDateCollection tbl s e none
          = .ok ⟨tbl, (inclusive_date_range s e).map (fun d => (d, none))⟩)
    ∧ (∀ (tbl : CoordTable) (s e : Int) (loc : String) (cc : ℚ × ℚ),
        coordinatesOf tbl loc = .ok cc →
        mkDateCollection tbl s e (some loc)
          = .ok ⟨tbl, (inclusive_date_range s e).map (fun d => (d, some ⟨loc, cc⟩))⟩)
    ∧ (∀ (tbl : CoordTable) (y1 y2 : Int) (home : String) (hc : ℚ × ℚ),
        coordinatesOf tbl home = .ok hc →
        mkDateDistanceCollection tbl y1 y2 home
          = .ok ⟨tbl, hc,
              (inclusive_date_range (toordinal y1 1 1) (toordinal y2 12 31)).map
                (fun d => (d, some ⟨home, hc, 0.0⟩))⟩) := by
  refine ⟨fun tbl s e => rfl, fun tbl s e loc cc h => ?_, fun tbl y1 y2 home hc h => ?_⟩
  · simp only [mkDateCollection, h]
  · simp only [mkDateDistanceCollection, mkDateCollection, h]
    rw [List.map_map]
    rfl

/-- Witness for C5: a concrete two-day calendar defaulted to "Home", and a
concrete one-year distance calendar defaulted to home with distance 0.0
everywhere. -/
theorem claim_C5_default_initialization_witness :
    (mkDateCollection sampleTable 3 4 (some "Home")
        = .ok ⟨sampleTable,
            (inclusive_date_range 3 4).map (fun d => (d, some ⟨"Home", (30, -87)⟩))⟩)
    ∧ (mkDateDistanceCollection sampleTable 2024 2024 "Home"
        = .ok ⟨sampleTable, (30, -87),
            (inclusive_date_range (toordinal 2024 1 1) (toordinal 2024 12 31)).map
              (fun d => (d, some ⟨"Home", (30, -87), 0.0⟩))⟩) :=
  ⟨claim_C5_default_initialization.2.1 sampleTable 3 4 "Home" (30, -87) rfl,
   claim_C5_default_initialization.2.2 sampleTable 2024 2024 "Home" (30, -87) rfl⟩

/-- C4: for every `set_location` call with a resolvable location, on either
class: no error is reported, the key set is unchanged, every stay date that is
a key of the mapping is overwritten with the new assignment, and every date
outside the stay range keeps its previous value (stay dates outside the
calendar's span are silently skipped, since they are not keys). -/
theorem claim_C4_partial_overlap_frame :
    (∀ (c : DateCollection) (co n : Int) (loc : String) (cc : ℚ × ℚ),
        coordinatesOf c.location_coordinates loc = .ok cc →
        (c.set_location co n loc).2 = none
        ∧ keys (c.set_location co n loc).1 = keys c.locations
        ∧ (∀ d ∈ inclusive_date_range (first_morning co n) co,
            d ∈ keys c.locations →
              getVal (c.set_location co n loc).1 d = some (some ⟨loc, cc⟩))
        ∧ (∀ d : Int, d ∉ inclusive_date_range (first_morning co n) co →
            getVal (c.set_location co n loc).1 d = getVal c.locations d))
    ∧ (∀ (c : DateDistanceCollection) (co n : Int) (loc : String) (cc : ℚ × ℚ),
        coordinatesOf c.location_coordinates loc = .ok cc →
        (c.set_location co n loc).2 = none
        ∧ keys (c.set_location co n loc).1 = keys c.locations
        ∧ (∀ d ∈ inclusive_date_range (first_morning co n) co,
            d ∈ keys c.locations →
              getVal (c.set_location co n loc).1 d
                = some (some ⟨loc, cc, haversine c.home_coordinates cc⟩))
        ∧ (∀ d : Int, d ∉ inclusive_date_range (first_morning co n) co →
            getVal (c.set_location co n loc).1 d = getVal c.locations d)) := by
  constructor
  · intro c co n loc cc h
    have hrun : c.set_location co n loc
        = (stampFold (some ⟨loc, cc⟩)
            (inclusive_date_range (first_morning co n) co) c.locations, none) :=
      stampLoop_ok _ h _ _
    rw [hrun]
    exact ⟨rfl, keys_stampFold _ _ _,
      fun d hd hk => getVal_stampFold_mem _ hd hk,
      fun d hd => getVal_stampFold_not_mem _ _ hd⟩
  · intro c co n loc cc h
    have hhd : c.home_distance loc = .ok (haversine c.home_coordinates cc) := by
      simp only [DateDistanceCollection.home_distance, h]
    have hrun : c.set_location co n loc
        = (stampFold (some ⟨loc, cc, haversine c.home_coordinates cc⟩)
            (inclusive_date_range (first_morning co n) co) c.locations, none) := by
      simp only [DateDistanceCollection.set_location, hhd]
      exact stampLoop_ok _ h _ _
    rw [hrun]
    exact ⟨rfl, keys_stampFold _ _ _,
      fun d hd hk => getVal_stampFold_mem _ hd hk,
      fun d hd => getVal_stampFold_not_mem _ _ hd⟩

/-- Witness for C4: a stay [2, 3, 4] over a calendar with keys [3, 4, 5]
updates dates 3 and 4, reports no error, skips the out-of-span date 2, and
leaves date 5 (outside the stay range) unchanged. -/
theorem claim_C4_partial_overlap_frame_witness :
    ((DateCollection.set_location
        ⟨sampleTable, [(3, none), (4, none), (5, some ⟨"y", (1, 1)⟩)]⟩ 4 3 "Home").2
      = none)
    ∧ getVal (DateCollection.set_location
        ⟨sampleTable, [(3, none), (4, none), (5, some ⟨"y", (1, 1)⟩)]⟩ 4 3 "Home").1 3
      = some (some ⟨"Home", (30, -87)⟩)
    ∧ getVal (DateCollection.set_location
        ⟨sampleTable, [(3, none), (4, none), (5, some ⟨"y", (1, 1)⟩)]⟩ 4 3 "Home").1 5
      = some (some ⟨"y", (1, 1)⟩) := by
  have h := claim_C4_partial_overlap_frame.1
    ⟨sampleTable, [(3, none), (4, none), (5, some ⟨"y", (1, 1)⟩)]⟩ 4 3 "Home"
    (30, -87) rfl
  exact ⟨h.1, h.2.2.1 3 (by decide) (by decide),
    Eq.trans (h.2.2.2 5 (by decide)) rfl⟩

/-- C8: on every distance-calendar `set_location` call with a resolvable
location, the haversine distance is evaluated exactly once per call (the
instrumented call counts one evaluation, performed before the per-date loop,
regardless of how many dates the stay covers), and every in-span stay date is
overwritten with the same city, coordinates and that single distance value. -/
theorem claim_C8_distance_once_per_call :
    ∀ (c : DateDistanceCollection) (co n : Int) (loc : String) (cc : ℚ × ℚ),
      coordinatesOf c.location_coordinates loc = .ok cc →
      c.home_distance loc = .ok (haversine c.home_coordinates cc)
      ∧ c.set_location_counted co n loc = (c.set_location co n loc, 1)
      ∧ (c.set_location co n loc).2 = none
      ∧ (∀ d ∈ inclusive_date_range (first_morning co n) co,
          d ∈ keys c.locations →
            getVal (c.set_location co n loc).1 d
              = some (some ⟨loc, cc, haversine c.home_coordinates cc⟩)) := by
  intro c co n loc cc h
  have hhd : c.home_distance loc = .ok (haversine c.home_coordinates cc) := by
    simp only [DateDistanceCollection.home_distance, h]
  have hrun : c.set_location co n loc
      = (stampFold (some ⟨loc, cc, haversine c.home_coordinates cc⟩)
          (inclusive_date_range (first_morning co n) co) c.locations, none) := by
    simp only [DateDistanceCollection.set_location, hhd]
    exact stampLoop_ok _ h _ _
  refine ⟨hhd, ?_, ?_, ?_⟩
  · simp only [DateDistanceCollection.set_location_counted,
      DateDistanceCollection.set_location, hhd]
    rw [stampLoopCounted_fst, stampLoopCounted_count]
  · rw [hrun]
  · rw [hrun]
    exact fun d hd hk => getVal_stampFold_mem _ hd hk

/-- Witness for C8: on a concrete two-day distance calendar, a concrete stay
performs exactly one distance evaluation and stamps the shared value. -/
theorem claim_C8_distance_once_per_call_witness :
    ((DateDistanceCollection.set_location_counted
        ⟨sampleTable, (30, -87), [(3, some ⟨"h", (30, -87), 0.0⟩),
          (4, some ⟨"h", (30, -87), 0.0⟩)]⟩ 4 2 "US/FL/Pcola").2 = 1)
    ∧ getVal (DateDistanceCollection.set_location
        ⟨sampleTable, (30, -87), [(3, some ⟨"h", (30, -87), 0.0⟩),
          (4, some ⟨"h", (30, -87), 0.0⟩)]⟩ 4 2 "US/FL/Pcola").1 3
      = some (some ⟨"US/FL/Pcola", (3042, -8722), haversine (30, -87) (3042, -8722)⟩) := by
  have h := claim_C8_distance_once_per_call
    ⟨sampleTable, (30, -87), [(3, some ⟨"h", (30, -87), 0.0⟩),
      (4, some ⟨"h", (30, -87), 0.0⟩)]⟩ 4 2 "US/FL/Pcola" (3042, -8722) rfl
  exact ⟨by rw [h.2.1], h.2.2.2 3 (by decide) (by decide)⟩

/-- C3: when a location's path has a segment missing from the reference
table, every operation that resolves it prints the missing identifier and the
reference-file path and aborts the process before any mapping mutation:
construction with such a default fails before any mapping exists,
`set_location` on the base class aborts with the mapping in its original
state as soon as the stay overlaps the span (with no overlap it never
resolves), and `set_location` on the distance class always aborts before its
loop, likewise leaving the mapping untouched. -/
theorem claim_C3_fatal_lookup :
    ∀ (tbl : CoordTable) (loc : String),
      walkTable tbl (pySplit loc) = .error .missing →
      (∀ s e : Int, mkDateCollection tbl s e (some loc)
          = .error (.systemExit (missing_message loc)))
      ∧ (∀ (c : DateCollection) (co n : Int), c.location_coordinates = tbl →
          (∃ d ∈ inclusive_date_range (first_morning co n) co, d ∈ keys c.locations) →
          c.set_location co n loc
            = (c.locations, some (.systemExit (missing_message loc))))
      ∧ (∀ (c : DateDistanceCollection) (co n : Int), c.location_coordinates = tbl →
          c.set_location co n loc
            = (c.locations, some (.systemExit (missing_message loc))))
      ∧ loc ∈ missing_message loc
      ∧ ("\nPlease add it to " ++ COORDINATES_PATH ++ ".\n") ∈ missing_message loc := by
  intro tbl loc h
  have hres : coordinatesOf tbl loc = .error (.systemExit (missing_message loc)) := by
    simp only [coordinatesOf, h]
  refine ⟨fun s e => ?_, fun c co n htbl hex => ?_, fun c co n htbl => ?_, ?_, ?_⟩
  · simp only [mkDateCollection, hres]
  · obtain ⟨d, hd, hk⟩ := hex
    have hres' : coordinatesOf c.location_coordinates loc
        = .error (.systemExit (missing_message loc)) := by
      rw [htbl]
      exact hres
    exact stampLoop_error _ hres' hd hk
  · simp only [DateDistanceCollection.set_location,
      DateDistanceCollection.home_distance, htbl, hres]
  · simp [missing_message]
  · simp [missing_message]

/-- Witness for C3 at the unresolvable location "US/TX": construction fails
with the printed message, a concrete overlapping stay aborts with the mapping
unchanged, and the message names the identifier. -/
theorem claim_C3_fatal_lookup_witness :
    (mkDateCollection sampleTable 0 1 (some "US/TX")
        = .error (.systemExit (missing_message "US/TX")))
    ∧ (DateCollection.set_location ⟨sampleTable, [(3, none), (4, none)]⟩ 4 2 "US/TX"
        = ([(3, none), (4, none)], some (.systemExit (missing_message "US/TX"))))
    ∧ "US/TX" ∈ missing_message "US/TX" := by
  have h := claim_C3_fatal_lookup sampleTable "US/TX" (by decide)
  exact ⟨h.1 0 1,
    h.2.1 ⟨sampleTable, [(3, none), (4, none)]⟩ 4 2 rfl ⟨4, by decide, by decide⟩,
    h.2.2.2.1⟩

/-- C9: on either calendar class, calling `set_location` twice with identical
arguments yields the same mapping state (and crash outcome) as calling it
once, for every table, mapping state and argument triple. -/
theorem claim_C9_set_location_idempotent :
    (∀ (tbl : CoordTable) (l : List (Int × Option Assignment)) (co n : Int)
        (loc : String),
        runTwice (fun l0 => DateCollection.set_location ⟨tbl, l0⟩ co n loc) l
          = DateCollection.set_location ⟨tbl, l⟩ co n loc)
    ∧ (∀ (tbl : CoordTable) (hc : ℚ × ℚ) (l : List (Int × Option DistanceAssignment))
        (co n : Int) (loc : String),
        runTwice (fun l0 => DateDistanceCollection.set_location ⟨tbl, hc, l0⟩ co n loc) l
          = DateDistanceCollection.set_location ⟨tbl, hc, l⟩ co n loc) := by
  constructor
  · intro tbl l co n loc
    exact runTwice_eq_self (fun l1 h1 => stampLoop_restamp tbl loc _ _ l h1)
  · intro tbl hc l co n loc
    refine runTwice_eq_self (fun l1 h1 => ?_)
    cases hres : coordinatesOf tbl loc with
    | ok c =>
        have hsl : ∀ l0 : List (Int × Option DistanceAssignment),
            DateDistanceCollection.set_location ⟨tbl, hc, l0⟩ co n loc
              = stampLoop tbl loc (fun cc => some ⟨loc, cc, haversine hc c⟩)
                  (inclusive_date_range (first_morning co n) co) l0 := by
          intro l0
          simp only [DateDistanceCollection.set_location,
            DateDistanceCollection.home_distance, hres]
        rw [hsl] at h1 ⊢
        exact stampLoop_restamp tbl loc _ _ l h1
    | error e =>
        have hsl : DateDistanceCollection.set_location ⟨tbl, hc, l⟩ co n loc
            = (l, some e) := by
          simp only [DateDistanceCollection.set_location,
            DateDistanceCollection.home_distance, hres]
        rw [hsl] at h1
        simp at h1

theorem haversine_eq (home dest : ℚ × ℚ) :
    haversine home dest
      = 2 * EARTH_MEAN_RADIUS
          * atan2 (Real.sqrt (hav_a home dest)) (Real.sqrt (1 - hav_a home dest)) :=
  rfl

theorem EARTH_MEAN_RADIUS_pos : 0 < EARTH_MEAN_RADIUS := by
  unfold EARTH_MEAN_RADIUS
  norm_num

theorem atan2_nonneg {y : ℝ} (x : ℝ) (hy : 0 ≤ y) : 0 ≤ atan2 y x :=
  Complex.arg_nonneg_iff.mpr hy

theorem haversine_nonneg (home dest : ℚ × ℚ) : 0 ≤ haversine home dest := by
  rw [haversine_eq]
  exact mul_nonneg (mul_nonneg (by norm_num) EARTH_MEAN_RADIUS_pos.le)
    (atan2_nonneg _ (Real.sqrt_nonneg _))

theorem hav_a_self (home : ℚ × ℚ) : hav_a home home = 0 := by
  unfold hav_a
  simp [sub_self, Real.sin_zero]

theorem atan2_zero_one : atan2 0 1 = 0 := by
  unfold atan2
  have h1 : (⟨1, 0⟩ : ℂ) = 1 := by
    apply Complex.ext <;> simp
  rw [h1, Complex.arg_one]

theorem haversine_self (home : ℚ × ℚ) : haversine home home = 0 := by
  rw [haversine_eq, hav_a_self, Real.sqrt_zero, sub_zero, Real.sqrt_one,
    atan2_zero_one, mul_zero]

/-- C6: the computed distance is exactly the spec's reference haversine: the
formula transcribed from the code agrees with the formula written from the
spec's text on all coordinate pairs, and `_home_distance` returns exactly the
spec formula applied to the home coordinates and the resolved destination
(propagating the resolution error otherwise). -/
theorem claim_C6_haversine_matches_spec :
    (∀ home dest : ℚ × ℚ, haversine home dest = spec_haversine home dest)
    ∧ (∀ (c : DateDistanceCollection) (loc : String),
        c.home_distance loc
          = Except.map (spec_haversine c.home_coordinates)
              (coordinatesOf c.location_coordinates loc)) := by
  constructor
  · intro home dest
    rfl
  · intro c loc
    cases hres : coordinatesOf c.location_coordinates loc with
    | ok cc =>
        simp only [DateDistanceCollection.home_distance, hres, Except.map]
        rfl
    | error e =>
        simp only [DateDistanceCollection.home_distance, hres, Except.map]

/-- C7: every distance `_home_distance` successfully returns is non-negative,
and when the destination resolves to exactly the home coordinates the
returned distance is exactly 0. -/
theorem claim_C7_distance_nonneg_and_home_zero :
    ∀ (c : DateDistanceCollection) (loc : String) (r : ℝ),
      c.home_distance loc = .ok r →
      0 ≤ r
      ∧ (coordinatesOf c.location_coordinates loc = .ok c.home_coordinates → r = 0) := by
  intro c loc r h
  cases hres : coordinatesOf c.location_coordinates loc with
  | error e =>
      refine absurd h ?_
      simp only [DateDistanceCollection.home_distance, hres]
      exact fun hh => Except.noConfusion hh
  | ok cc =>
      simp only [DateDistanceCollection.home_distance, hres, Except.ok.injEq] at h
      subst h
      constructor
      · exact haversine_nonneg _ _
      · intro h2
        have hcc : cc = c.home_coordinates := Except.ok.inj h2
        rw [hcc]
        exact haversine_self _

/-- Witness for C7: for a home at (30, -87) and the location "Home" resolving
to the same coordinates, the returned distance is non-negative and exactly 0. -/
theorem claim_C7_distance_nonneg_and_home_zero_witness :
    (0 : ℝ) ≤ haversine (30, -87) (30, -87) ∧ haversine (30, -87) (30, -87) = 0 := by
  have h := claim_C7_distance_nonneg_and_home_zero
    ⟨sampleTable, (30, -87), []⟩ "Home" (haversine (30, -87) (30, -87)) rfl
  exact ⟨h.1, h.2 rfl⟩
